import Mathlib

/-!
Shallow embedding of the CarMod Showdown backend voting engine
(`server.js`: POST /api/vote, GET /api/voting/batch/:userId,
GET /api/winners/:weekNumber, getCurrentWeek) together with proofs of the
behavioural properties claimed by the specification.

Modelling conventions:
* the Postgres tables `submissions` and `user_votes` become Lean lists of
  records; an SQL `UPDATE ... WHERE c` is a `List.map` that rewrites the rows
  satisfying `c`;
* `ORDER BY x ASC, RANDOM()` is modelled by the stable sort
  `List.insertionSort` on the deterministic key `x` (the random tie-break is
  one fixed choice of tie order; all claims below are tie-order independent);
* SQL `FLOAT` arithmetic (`thumbs_up::FLOAT / total_votes * 100`,
  `Math.ceil(totalVoters * 0.20)`) is modelled by exact rational arithmetic,
  which coincides with the double-precision results for every realistic
  table size;
* JavaScript timestamps are integers of milliseconds since the epoch, and
  `Math.floor` of a division is `Int.fdiv`.
-/

namespace CarMod

/-- Submission status values used by the backend: new submissions are
created `PENDING`, the vote handler promotes them to `QUALIFIED`, and the
admin winner endpoint writes the lowercase status string `winner`. -/
inductive Status where
  | PENDING
  | QUALIFIED
  | winner
deriving DecidableEq, Repr

/-- One row of the `submissions` table (the columns the voting engine
reads or writes). -/
structure Submission where
  id : Nat
  user_id : Nat
  week_number : Nat
  status : Status
  times_shown : Nat
  thumbs_up : Nat
  thumbs_down : Nat
  total_votes : Nat
  votes_completed : Nat
  qualified_at : Option Nat
deriving DecidableEq, Repr

/-- One row of the `user_votes` table.  `vote_value` is the raw JSON value
of the request body field `voteValue`: `none` models a missing/malformed
value, `some n` an integer value. -/
structure Vote where
  voter_id : Nat
  submission_id : Nat
  vote_value : Option Int
deriving DecidableEq, Repr

/-- The database state shared by all request handlers. -/
structure DB where
  submissions : List Submission
  user_votes : List Vote
deriving DecidableEq, Repr

/-- The JSON body answered by POST /api/vote (the static `message` string
is omitted; `success` is the literal `success: true`). -/
structure VoteResp where
  success : Bool
  votesCompleted : Nat
  votesRequired : Nat
  qualified : Bool
deriving DecidableEq, Repr

/-- `INSERT INTO user_votes ... ON CONFLICT (voter_id, submission_id) DO
NOTHING` duplicate test: does a row for this (voter, submission) pair
already exist? -/
def pairExists (voterId submissionId : Nat) (votes : List Vote) : Bool :=
  votes.any fun v => decide (v.voter_id = voterId ∧ v.submission_id = submissionId)

/-- The insert-if-absent of POST /api/vote (line 445): append the vote row
unless the (voter, submission) pair is already present. -/
def recordVote (voterId submissionId : Nat) (voteValue : Option Int)
    (votes : List Vote) : List Vote :=
  if pairExists voterId submissionId votes then votes
  else votes ++ [⟨voterId, submissionId, voteValue⟩]

/-- The unconditional tally update of POST /api/vote (lines 452-462):
`UPDATE submissions SET thumbs_up/thumbs_down + 1, total_votes + 1 WHERE
id = submissionId`, choosing the column by `voteValue === 1`. -/
def bumpTally (voteValue : Option Int) (submissionId : Nat)
    (s : Submission) : Submission :=
  if s.id = submissionId then
    if voteValue = some 1 then
      { s with thumbs_up := s.thumbs_up + 1, total_votes := s.total_votes + 1 }
    else
      { s with thumbs_down := s.thumbs_down + 1, total_votes := s.total_votes + 1 }
  else s

/-- `SELECT COUNT(*) FROM user_votes WHERE voter_id = voterId`. -/
def voteCountOf (voterId : Nat) (votes : List Vote) : Nat :=
  (votes.filter fun v => decide (v.voter_id = voterId)).length

/-- The qualification block of POST /api/vote (lines 464-501): look up the
voter's submissions (`SELECT * FROM submissions WHERE user_id = voterId`,
the guard reading only the first returned row), write the recomputed vote
count to `votes_completed` of every row owned by the voter, and if the
count reached 25 while that first row is still `PENDING`, set every row
owned by the voter to `QUALIFIED` with `qualified_at = NOW()`.  Returns
(qualified flag, vote count, updated submissions). -/
def qualifyStep (voterId now : Nat) (votes : List Vote)
    (subs : List Submission) : Bool × Nat × List Submission :=
  match subs.filter fun s => decide (s.user_id = voterId) with
  | [] => (false, 0, subs)
  | vs :: _ =>
    let n := voteCountOf voterId votes
    let subs2 := subs.map fun s =>
      if s.user_id = voterId then { s with votes_completed := n } else s
    if 25 ≤ n ∧ vs.status = Status.PENDING then
      (true, n, subs2.map fun s =>
        if s.user_id = voterId then
          { s with status := Status.QUALIFIED, qualified_at := some now }
        else s)
    else (false, n, subs2)

/-- POST /api/vote (lines 440-518): record the vote idempotently, bump the
target submission's tallies unconditionally, then run the qualification
block for the voter.  `now` is the timestamp `NOW()` of this request. -/
def castVote (voterId submissionId : Nat) (voteValue : Option Int)
    (now : Nat) (db : DB) : VoteResp × DB :=
  let votes1 := recordVote voterId submissionId voteValue db.user_votes
  let subs1 := db.submissions.map (bumpTally voteValue submissionId)
  let q := qualifyStep voterId now votes1 subs1
  (⟨true, q.2.1, 25, q.1⟩, ⟨q.2.2, votes1⟩)

/-- One request to POST /api/vote, for folding sequences of casts. -/
structure CastArgs where
  voterId : Nat
  submissionId : Nat
  voteValue : Option Int
  now : Nat
deriving DecidableEq, Repr

/-- Fold a sequence of POST /api/vote requests over the database. -/
def applyCasts : List CastArgs → DB → DB
  | [], db => db
  | c :: cs, db => applyCasts cs (castVote c.voterId c.submissionId c.voteValue c.now db).2

/-- Fold a sequence of POST /api/vote requests by one fixed voter with one
fixed vote value over the given target submission ids, collecting the
responses in order. -/
def castSeq (w : Nat) (v : Option Int) (now : Nat) :
    List Nat → DB → List VoteResp × DB
  | [], db => ([], db)
  | t :: ts, db =>
    let r := castVote w t v now db
    let rest := castSeq w v now ts r.2
    (r.1 :: rest.1, rest.2)

/-- The fixed competition start date `new Date('2025-10-07')` of
`getCurrentWeek`, in milliseconds since the epoch (UTC midnight). -/
def startDateMs : Int := 1759795200000

/-- Milliseconds per day, `1000 * 60 * 60 * 24`. -/
def msPerDay : Int := 86400000

/-- getCurrentWeek (lines 121-132) as a function of the current time in
epoch milliseconds: day difference from the start date (floored), its week
bucket plus one, clamped to 0 before the start and 11 after week 10. -/
def getCurrentWeek (nowMs : Int) : Int :=
  let diffTime := nowMs - startDateMs
  let diffDays := Int.fdiv diffTime msPerDay
  let weekNumber := Int.fdiv diffDays 7 + 1
  if weekNumber < 1 then 0
  else if weekNumber > 10 then 11
  else weekNumber

/-- Eligibility test shared by both queries of GET /api/voting/batch
(lines 376-399): `user_id != userId AND id NOT IN (SELECT submission_id
FROM user_votes WHERE voter_id = userId)`. -/
def eligible (userId : Nat) (votes : List Vote) (s : Submission) : Bool :=
  decide (s.user_id ≠ userId) &&
    !(votes.any fun v => decide (v.voter_id = userId ∧ v.submission_id = s.id))

/-- The sort key of the batch queries: `ORDER BY times_shown ASC`
(`RANDOM()` tie-break modelled as the stable tie order of the sort). -/
def shownOrder (a b : Submission) : Prop :=
  a.times_shown ≤ b.times_shown

instance : DecidableRel shownOrder := fun a b =>
  decidable_of_iff (a.times_shown ≤ b.times_shown) Iff.rfl

instance : IsTotal Submission shownOrder :=
  ⟨fun a b => Nat.le_total a.times_shown b.times_shown⟩

instance : IsTrans Submission shownOrder :=
  ⟨fun _ _ _ => Nat.le_trans⟩

/-- The per-entry loop of GET /api/voting/batch (lines 404-423): for every
returned entry, `UPDATE submissions SET times_shown = times_shown + 1
WHERE id = entry.id`. -/
def markShown (entries : List Submission) (subs : List Submission) :
    List Submission :=
  entries.foldl
    (fun acc e => acc.map fun s =>
      if s.id = e.id then { s with times_shown := s.times_shown + 1 } else s)
    subs

/-- The JSON body answered by GET /api/voting/batch. -/
structure BatchResp where
  success : Bool
  entries : List Submission
deriving DecidableEq, Repr

/-- GET /api/voting/batch/:userId (lines 370-437): select up to 25
eligible `QUALIFIED` submissions ordered by ascending `times_shown`; if
that result is empty, rerun the same query without the status filter;
then increment `times_shown` of every returned entry. -/
def getVotingBatch (userId : Nat) (db : DB) : BatchResp × DB :=
  let entries := (List.insertionSort shownOrder
    (db.submissions.filter fun s =>
      eligible userId db.user_votes s && decide (s.status = Status.QUALIFIED))).take 25
  if entries.isEmpty then
    let pendingEntries := (List.insertionSort shownOrder
      (db.submissions.filter fun s => eligible userId db.user_votes s)).take 25
    (⟨true, pendingEntries⟩, ⟨markShown pendingEntries db.submissions, db.user_votes⟩)
  else
    (⟨true, entries⟩, ⟨markShown entries db.submissions, db.user_votes⟩)

/-- `SELECT COUNT(DISTINCT voter_id) FROM user_votes` (line 569). -/
def distinctVoters (votes : List Vote) : Nat :=
  ((votes.map Vote.voter_id).dedup).length

/-- `Math.max(Math.ceil(totalVoters * 0.20), 1)` (line 575), written with
exact integer arithmetic: `(n + 4) / 5` is the ceiling of `n / 5`, which
is what the double-precision expression evaluates to for every realistic
voter count. -/
def minimumVotes (totalVoters : Nat) : Nat :=
  max ((totalVoters + 4) / 5) 1

/-- The computed column of the winners query (lines 580-583):
`CASE WHEN total_votes > 0 THEN thumbs_up::FLOAT / total_votes * 100 ELSE
0 END`, in exact rational arithmetic. -/
def approval_rating (s : Submission) : ℚ :=
  if 0 < s.total_votes then (s.thumbs_up : ℚ) / (s.total_votes : ℚ) * 100 else 0

/-- The sort key of the winners query: `ORDER BY approval_rating DESC,
total_votes DESC` — `a` ranks no worse than `b`. -/
def winnerOrder (a b : Submission) : Prop :=
  approval_rating b < approval_rating a ∨
    (approval_rating a = approval_rating b ∧ b.total_votes ≤ a.total_votes)

instance : DecidableRel winnerOrder := fun a b =>
  decidable_of_iff
    (approval_rating b < approval_rating a ∨
      (approval_rating a = approval_rating b ∧ b.total_votes ≤ a.total_votes))
    Iff.rfl

instance : IsTotal Submission winnerOrder := by
  constructor
  intro a b
  rcases lt_trichotomy (approval_rating a) (approval_rating b) with h | h | h
  · exact Or.inr (Or.inl h)
  · rcases Nat.le_total b.total_votes a.total_votes with h2 | h2
    · exact Or.inl (Or.inr ⟨h, h2⟩)
    · exact Or.inr (Or.inr ⟨h.symm, h2⟩)
  · exact Or.inl (Or.inl h)

instance : IsTrans Submission winnerOrder := by
  constructor
  intro a b c hab hbc
  rcases hab with hab | ⟨hab, hab2⟩
  · rcases hbc with hbc | ⟨hbc, _⟩
    · exact Or.inl (lt_trans hbc hab)
    · exact Or.inl (hbc ▸ hab)
  · rcases hbc with hbc | ⟨hbc, hbc2⟩
    · exact Or.inl (hab ▸ hbc)
    · exact Or.inr ⟨hab.trans hbc, le_trans hbc2 hab2⟩

/-- GET /api/winners/:weekNumber (lines 564-605): count the distinct
voters of the whole competition, derive the 20 percent quorum, and return
the top 10 `QUALIFIED` submissions of the week meeting the quorum, ranked
by approval rating then by total votes.  The handler only runs SELECT
statements, so it returns no updated state. -/
def getWinners (weekNumber : Nat) (db : DB) : List Submission × Nat :=
  let m := minimumVotes (distinctVoters db.user_votes)
  ((List.insertionSort winnerOrder
    (db.submissions.filter fun s =>
      decide (s.week_number = weekNumber) && decide (s.status = Status.QUALIFIED) &&
        decide (m ≤ s.total_votes))).take 10, m)

theorem bumpTally_id (v : Option Int) (t : Nat) (s : Submission) :
    (bumpTally v t s).id = s.id := by
  unfold bumpTally; split_ifs <;> rfl

theorem bumpTally_user_id (v : Option Int) (t : Nat) (s : Submission) :
    (bumpTally v t s).user_id = s.user_id := by
  unfold bumpTally; split_ifs <;> rfl

theorem bumpTally_status (v : Option Int) (t : Nat) (s : Submission) :
    (bumpTally v t s).status = s.status := by
  unfold bumpTally; split_ifs <;> rfl

theorem bumpTally_week (v : Option Int) (t : Nat) (s : Submission) :
    (bumpTally v t s).week_number = s.week_number := by
  unfold bumpTally; split_ifs <;> rfl

theorem bumpTally_shown (v : Option Int) (t : Nat) (s : Submission) :
    (bumpTally v t s).times_shown = s.times_shown := by
  unfold bumpTally; split_ifs <;> rfl

theorem bumpTally_qa (v : Option Int) (t : Nat) (s : Submission) :
    (bumpTally v t s).qualified_at = s.qualified_at := by
  unfold bumpTally; split_ifs <;> rfl

theorem bumpTally_total (v : Option Int) (t : Nat) (s : Submission) :
    (bumpTally v t s).total_votes = s.total_votes + (if s.id = t then 1 else 0) := by
  unfold bumpTally; split_ifs <;> simp

theorem bumpTally_up (v : Option Int) (t : Nat) (s : Submission) :
    (bumpTally v t s).thumbs_up
      = s.thumbs_up + (if s.id = t ∧ v = some 1 then 1 else 0) := by
  unfold bumpTally
  split_ifs with h1 h2 h3 <;> simp_all

theorem bumpTally_down (v : Option Int) (t : Nat) (s : Submission) :
    (bumpTally v t s).thumbs_down
      = s.thumbs_down + (if s.id = t ∧ ¬v = some 1 then 1 else 0) := by
  unfold bumpTally
  split_ifs with h1 h2 h3 <;> simp_all

/-- Filtering commutes with mapping a row transformer that does not touch
the filtered column. -/
theorem filter_map_of_preserve {p : Submission → Bool}
    (f : Submission → Submission) (hf : ∀ s, p (f s) = p s)
    (l : List Submission) :
    (l.map f).filter p = (l.filter p).map f := by
  rw [List.filter_map]
  congr 1
  exact List.filter_congr fun a _ => hf a

/-- The qualification block rewrites the submissions rowwise: it never
touches id, owner, tallies, week or exposure, and it never takes a
`QUALIFIED` row back off `QUALIFIED`. -/
theorem qualifyStep_subs (w now : Nat) (votes : List Vote)
    (subs : List Submission) :
    ∃ f : Submission → Submission,
      (qualifyStep w now votes subs).2.2 = subs.map f ∧
      ∀ s, (f s).id = s.id ∧ (f s).user_id = s.user_id ∧
        (f s).thumbs_up = s.thumbs_up ∧ (f s).thumbs_down = s.thumbs_down ∧
        (f s).total_votes = s.total_votes ∧ (f s).week_number = s.week_number ∧
        (f s).times_shown = s.times_shown ∧
        (s.status = Status.QUALIFIED → (f s).status = Status.QUALIFIED) := by
  unfold qualifyStep
  cases h : subs.filter fun s => decide (s.user_id = w) with
  | nil =>
    exact ⟨id, (List.map_id subs).symm, fun s => by simp⟩
  | cons vs rest =>
    dsimp only
    split_ifs with hq
    · refine ⟨_, List.map_map _ _ subs, ?_⟩
      intro s
      by_cases hs : s.user_id = w <;>
        simp [Function.comp, hs]
    · refine ⟨_, rfl, ?_⟩
      intro s
      by_cases hs : s.user_id = w <;> simp [hs]

/-- POST /api/vote rewrites the submissions table rowwise: exactly the
rows with the target id get one extra vote (a thumbs up exactly when
`voteValue === 1`), and no row ever moves from `QUALIFIED` back to
another status. -/
theorem castVote_submissions (w t : Nat) (v : Option Int) (now : Nat) (db : DB) :
    ∃ f : Submission → Submission,
      (castVote w t v now db).2.submissions = db.submissions.map f ∧
      ∀ s, (f s).id = s.id ∧ (f s).user_id = s.user_id ∧
        (f s).week_number = s.week_number ∧ (f s).times_shown = s.times_shown ∧
        (f s).total_votes = s.total_votes + (if s.id = t then 1 else 0) ∧
        (f s).thumbs_up = s.thumbs_up + (if s.id = t ∧ v = some 1 then 1 else 0) ∧
        (f s).thumbs_down = s.thumbs_down + (if s.id = t ∧ ¬v = some 1 then 1 else 0) ∧
        (s.status = Status.QUALIFIED → (f s).status = Status.QUALIFIED) := by
  obtain ⟨g, hg, hgf⟩ := qualifyStep_subs w now
    (recordVote w t v db.user_votes) (db.submissions.map (bumpTally v t))
  refine ⟨g ∘ bumpTally v t, ?_, ?_⟩
  · show (qualifyStep w now (recordVote w t v db.user_votes)
      (db.submissions.map (bumpTally v t))).2.2 = _
    rw [hg, List.map_map]
  · intro s
    obtain ⟨h1, h2, h3, h4, h5, h6, h7, h8⟩ := hgf (bumpTally v t s)
    refine ⟨?_, ?_, ?_, ?_, ?_, ?_, ?_, ?_⟩
    · rw [Function.comp_apply, h1, bumpTally_id]
    · rw [Function.comp_apply, h2, bumpTally_user_id]
    · rw [Function.comp_apply, h6, bumpTally_week]
    · rw [Function.comp_apply, h7, bumpTally_shown]
    · rw [Function.comp_apply, h5, bumpTally_total]
    · rw [Function.comp_apply, h3, bumpTally_up]
    · rw [Function.comp_apply, h4, bumpTally_down]
    · intro hst
      exact h8 (by rw [bumpTally_status]; exact hst)

theorem castVote_success (w t : Nat) (v : Option Int) (now : Nat) (db : DB) :
    (castVote w t v now db).1.success = true := rfl

theorem castVote_votes (w t : Nat) (v : Option Int) (now : Nat) (db : DB) :
    (castVote w t v now db).2.user_votes = recordVote w t v db.user_votes := rfl

theorem voteCountOf_append_self (w t : Nat) (v : Option Int) (votes : List Vote) :
    voteCountOf w (votes ++ [⟨w, t, v⟩]) = voteCountOf w votes + 1 := by
  unfold voteCountOf
  rw [List.filter_append]
  simp

/-- One POST /api/vote request by a voter who owns exactly one submission
and whose (voter, target) pair is new: the ledger grows by one row, the
reported count is the old count plus one, the qualification flag fires
exactly when the new count reaches 25 while the owned submission is still
`PENDING`, and the owned submission's row is updated accordingly. -/
theorem castVote_step (w t : Nat) (v : Option Int) (now : Nat) (db : DB)
    (s : Submission)
    (hs : (db.submissions.filter fun x => decide (x.user_id = w)) = [s])
    (hnew : pairExists w t db.user_votes = false) :
    (castVote w t v now db).2.user_votes = db.user_votes ++ [⟨w, t, v⟩] ∧
    (castVote w t v now db).1.votesCompleted = voteCountOf w db.user_votes + 1 ∧
    ((castVote w t v now db).1.qualified = true ↔
      (25 ≤ voteCountOf w db.user_votes + 1 ∧ s.status = Status.PENDING)) ∧
    ∃ s2,
      ((castVote w t v now db).2.submissions.filter
        fun x => decide (x.user_id = w)) = [s2] ∧
      s2.status =
        (if 25 ≤ voteCountOf w db.user_votes + 1 ∧ s.status = Status.PENDING
          then Status.QUALIFIED else s.status) ∧
      s2.qualified_at =
        (if 25 ≤ voteCountOf w db.user_votes + 1 ∧ s.status = Status.PENDING
          then some now else s.qualified_at) ∧
      s2.votes_completed = voteCountOf w db.user_votes + 1 := by
  have hvotes1 : recordVote w t v db.user_votes = db.user_votes ++ [⟨w, t, v⟩] := by
    unfold recordVote
    rw [hnew]
    simp
  have hcount : voteCountOf w (recordVote w t v db.user_votes)
      = voteCountOf w db.user_votes + 1 := by
    rw [hvotes1, voteCountOf_append_self]
  have hfilter1 : ((db.submissions.map (bumpTally v t)).filter
      fun x => decide (x.user_id = w)) = [bumpTally v t s] := by
    rw [filter_map_of_preserve (bumpTally v t)
      (fun x => by rw [bumpTally_user_id]) db.submissions, hs]
    rfl
  unfold castVote
  dsimp only
  unfold qualifyStep
  rw [hfilter1, hcount]
  dsimp only
  rw [bumpTally_status]
  have hsw : s.user_id = w := by
    have hmem : s ∈ db.submissions.filter fun x => decide (x.user_id = w) := by
      rw [hs]; exact List.mem_singleton.mpr rfl
    exact of_decide_eq_true (List.mem_filter.mp hmem).2
  by_cases hQ : 25 ≤ voteCountOf w db.user_votes + 1 ∧ s.status = Status.PENDING
  · rw [if_pos hQ]
    refine ⟨hvotes1, rfl, iff_of_true rfl hQ,
      { bumpTally v t s with
          votes_completed := voteCountOf w db.user_votes + 1,
          status := Status.QUALIFIED, qualified_at := some now },
      ?_, by rw [if_pos hQ], by rw [if_pos hQ], rfl⟩
    rw [filter_map_of_preserve _
      (fun x => by split <;> rfl) _,
      filter_map_of_preserve _
      (fun x => by split <;> rfl) _,
      hfilter1]
    simp [bumpTally_user_id, hsw]
  · rw [if_neg hQ]
    refine ⟨hvotes1, rfl, iff_of_false (by simp) hQ,
      { bumpTally v t s with
          votes_completed := voteCountOf w db.user_votes + 1 },
      ?_, by rw [if_neg hQ, bumpTally_status], by rw [if_neg hQ, bumpTally_qa], rfl⟩
    rw [filter_map_of_preserve _
      (fun x => by split <;> rfl) _,
      hfilter1]
    simp [bumpTally_user_id, hsw]

theorem pairExists_append (w t : Nat) (l1 l2 : List Vote) :
    pairExists w t (l1 ++ l2) = (pairExists w t l1 || pairExists w t l2) := by
  unfold pairExists
  exact List.any_append

/-- Trace lemma for sequences of casts by one voter who owns exactly one
submission, still `PENDING`, and whose remaining distinct targets bring
the ledger count exactly to the quota of 25: the response flag `qualified`
is false on every cast but the last, true on the last, and afterwards the
owned submission is `QUALIFIED` with `qualified_at` stamped. -/
theorem castSeq_quals (w : Nat) (v : Option Int) (now : Nat) (ts : List Nat) :
    ∀ (db : DB) (s : Submission),
    (db.submissions.filter fun x => decide (x.user_id = w)) = [s] →
    s.status = Status.PENDING →
    (∀ t ∈ ts, pairExists w t db.user_votes = false) →
    ts.Nodup →
    voteCountOf w db.user_votes + ts.length = 25 →
    ((castSeq w v now ts db).1.map VoteResp.qualified
        = List.replicate (ts.length - 1) false
          ++ if ts.isEmpty then [] else [true]) ∧
    ∃ s2, ((castSeq w v now ts db).2.submissions.filter
        fun x => decide (x.user_id = w)) = [s2] ∧
      (ts ≠ [] → s2.status = Status.QUALIFIED ∧ s2.qualified_at = some now) := by
  induction ts with
  | nil =>
    intro db s hs _ _ _ _
    exact ⟨by simp [castSeq], s, hs, by simp⟩
  | cons t ts ih =>
    intro db s hs hst hn hnd hc
    obtain ⟨hv1, hvc, hqiff, s2, hfil2, hst2, hqa2, hvc2⟩ :=
      castVote_step w t v now db s hs (hn t (List.mem_cons_self t ts))
    have hcount1 : voteCountOf w (castVote w t v now db).2.user_votes
        = voteCountOf w db.user_votes + 1 := by
      rw [hv1, voteCountOf_append_self]
    have hseq : castSeq w v now (t :: ts) db
        = ((castVote w t v now db).1 :: (castSeq w v now ts (castVote w t v now db).2).1,
           (castSeq w v now ts (castVote w t v now db).2).2) := rfl
    rcases List.eq_nil_or_concat ts with hts | _
    · subst hts
      have hQ : 25 ≤ voteCountOf w db.user_votes + 1 ∧ s.status = Status.PENDING := by
        constructor
        · simp at hc
          omega
        · exact hst
      have hqual : (castVote w t v now db).1.qualified = true := hqiff.mpr hQ
      refine ⟨?_, s2, ?_, ?_⟩
      · rw [hseq]
        simp [castSeq, hqual]
      · rw [hseq]
        simpa [castSeq] using hfil2
      · intro _
        rw [if_pos hQ] at hst2 hqa2
        exact ⟨hst2, hqa2⟩
    · have hts : ts ≠ [] := by
        rcases ts with _ | _
        · simp_all
        · simp
      have hlen : 1 ≤ ts.length := by
        cases ts
        · simp_all
        · simp
      have hQ : ¬(25 ≤ voteCountOf w db.user_votes + 1 ∧ s.status = Status.PENDING) := by
        intro ⟨h25, _⟩
        simp only [List.length_cons] at hc
        omega
      have hqual : (castVote w t v now db).1.qualified = false := by
        rcases Bool.eq_false_or_eq_true (castVote w t v now db).1.qualified with h | h
        · exact absurd (hqiff.mp h) hQ
        · exact h
      have hst2' : s2.status = Status.PENDING := by
        rw [if_neg hQ] at hst2
        rw [hst2, hst]
      have hn2 : ∀ t' ∈ ts, pairExists w t' (castVote w t v now db).2.user_votes = false := by
        intro t' ht'
        rw [hv1, pairExists_append, hn t' (List.mem_cons_of_mem t ht'), Bool.false_or]
        have htne : t ≠ t' := by
          intro h
          exact (List.nodup_cons.mp hnd).1 (h ▸ ht')
        unfold pairExists
        simp [htne]
      have hc2 : voteCountOf w (castVote w t v now db).2.user_votes + ts.length = 25 := by
        rw [hcount1]
        simp only [List.length_cons] at hc
        omega
      obtain ⟨ihmap, s3, ihfil, ihq⟩ :=
        ih (castVote w t v now db).2 s2 hfil2 hst2' hn2 (List.nodup_cons.mp hnd).2 hc2
      refine ⟨?_, s3, ?_, fun _ => ihq hts⟩
      · rw [hseq]
        simp only [List.map_cons, ihmap, hqual, List.length_cons, Nat.add_sub_cancel]
        rw [List.isEmpty_cons]
        have : ts.length = (ts.length - 1) + 1 := by omega
        rw [this, List.replicate_succ]
        simp [hts, List.isEmpty_iff.mpr, List.isEmpty_eq_false_iff_exists_mem]
      · rw [hseq]
        exact ihfil

/-- C3: a voter owning a single `PENDING` submission with no prior votes
who casts exactly 25 distinct votes sees `qualified = false` on the first
24 responses and `qualified = true` exactly on the 25th; afterwards their
submission is `QUALIFIED` with `qualified_at` stamped, and any later
POST /api/vote request (by anyone) never takes a `QUALIFIED` submission
back off `QUALIFIED`. -/
theorem qualification_quota_spec (w : Nat) (v : Option Int) (now : Nat)
    (ts : List Nat) (db : DB) (s : Submission)
    (hs : (db.submissions.filter fun x => decide (x.user_id = w)) = [s])
    (hst : s.status = Status.PENDING)
    (hv0 : (db.user_votes.filter fun x => decide (x.voter_id = w)) = [])
    (hnd : ts.Nodup) (hlen : ts.length = 25) :
    (castSeq w v now ts db).1.map VoteResp.qualified
      = List.replicate 24 false ++ [true] ∧
    (∃ s2, ((castSeq w v now ts db).2.submissions.filter
        fun x => decide (x.user_id = w)) = [s2] ∧
      s2.status = Status.QUALIFIED ∧ s2.qualified_at = some now) ∧
    ∀ (c : CastArgs) (i : Nat)
      (h1 : i < (castSeq w v now ts db).2.submissions.length),
      ((castSeq w v now ts db).2.submissions.get ⟨i, h1⟩).status = Status.QUALIFIED →
      ∃ h2 : i < (castVote c.voterId c.submissionId c.voteValue c.now
          (castSeq w v now ts db).2).2.submissions.length,
        ((castVote c.voterId c.submissionId c.voteValue c.now
            (castSeq w v now ts db).2).2.submissions.get ⟨i, h2⟩).status
          = Status.QUALIFIED := by
  have hpe : ∀ t, pairExists w t db.user_votes = false := by
    intro t
    rcases Bool.eq_false_or_eq_true (pairExists w t db.user_votes) with h | h
    swap
    · exact h
    · exfalso
      unfold pairExists at h
      obtain ⟨x, hx, hxp⟩ := List.any_eq_true.mp h
      have hxw : x.voter_id = w := (of_decide_eq_true hxp).1
      have : x ∈ db.user_votes.filter fun x => decide (x.voter_id = w) :=
        List.mem_filter.mpr ⟨hx, decide_eq_true hxw⟩
      rw [hv0] at this
      exact absurd this (List.not_mem_nil x)
  have hc0 : voteCountOf w db.user_votes = 0 := by
    unfold voteCountOf
    rw [hv0]
    rfl
  obtain ⟨hmap, s2, hfil, hq⟩ := castSeq_quals w v now ts db s hs hst
    (fun t _ => hpe t) hnd (by rw [hc0, hlen])
  have htsne : ts ≠ [] := by
    intro h
    rw [h] at hlen
    exact absurd hlen (by simp)
  refine ⟨?_, ⟨s2, hfil, (hq htsne).1, (hq htsne).2⟩, ?_⟩
  · rw [hmap, hlen]
    simp [List.isEmpty_iff.mpr, htsne, List.isEmpty_eq_false_iff_exists_mem]
  · intro c i h1 hqual
    obtain ⟨f, hmap2, hf⟩ := castVote_submissions c.voterId c.submissionId
      c.voteValue c.now (castSeq w v now ts db).2
    have hlen2 : (castVote c.voterId c.submissionId c.voteValue c.now
        (castSeq w v now ts db).2).2.submissions.length
        = (castSeq w v now ts db).2.submissions.length := by
      rw [hmap2, List.length_map]
    refine ⟨by omega, ?_⟩
    have hget : (castVote c.voterId c.submissionId c.voteValue c.now
        (castSeq w v now ts db).2).2.submissions.get ⟨i, by omega⟩
        = f ((castSeq w v now ts db).2.submissions.get ⟨i, h1⟩) := by
      have := List.getElem_map f
        (l := (castSeq w v now ts db).2.submissions) (n := i)
        (h := by rw [List.length_map]; exact h1)
      simp only [List.get_eq_getElem]
      rw [List.getElem_of_eq hmap2]
      exact this
    rw [hget]
    exact (hf _).2.2.2.2.2.2.2 hqual

/-- Witness for C3: voter 100 owns the single pending submission 100 and
casts votes on targets 0 to 24; the responses read false 24 times then
true. -/
theorem qualification_quota_spec_witness :
    (castSeq 100 (some 1) 7 (List.range 25)
        ⟨[⟨100, 100, 1, Status.PENDING, 0, 0, 0, 0, 0, none⟩], []⟩).1.map VoteResp.qualified
      = List.replicate 24 false ++ [true] :=
  (qualification_quota_spec 100 (some 1) 7 (List.range 25)
    ⟨[⟨100, 100, 1, Status.PENDING, 0, 0, 0, 0, 0, none⟩], []⟩
    ⟨100, 100, 1, Status.PENDING, 0, 0, 0, 0, 0, none⟩
    (by decide) (by decide) (by decide) (by decide) (by decide)).1

/-- A single POST /api/vote request preserves the per-row tally invariant
`total_votes = thumbs_up + thumbs_down`. -/
theorem castVote_preserves_tally (w t : Nat) (v : Option Int) (now : Nat)
    (db : DB)
    (h : ∀ s ∈ db.submissions, s.total_votes = s.thumbs_up + s.thumbs_down) :
    ∀ s ∈ (castVote w t v now db).2.submissions,
      s.total_votes = s.thumbs_up + s.thumbs_down := by
  obtain ⟨f, hmap, hf⟩ := castVote_submissions w t v now db
  rw [hmap]
  intro x hx
  obtain ⟨s, hsmem, rfl⟩ := List.mem_map.mp hx
  obtain ⟨_, _, _, _, h5, h6, h7, _⟩ := hf s
  rw [h5, h6, h7, h s hsmem]
  by_cases h1 : s.id = t
  · by_cases h2 : v = some 1 <;> simp [h1, h2] <;> omega
  · simp [h1]

/-- Any sequence of POST /api/vote requests preserves the per-row tally
invariant. -/
theorem applyCasts_preserves_tally (casts : List CastArgs) :
    ∀ (db : DB),
    (∀ s ∈ db.submissions, s.total_votes = s.thumbs_up + s.thumbs_down) →
    ∀ s ∈ (applyCasts casts db).submissions,
      s.total_votes = s.thumbs_up + s.thumbs_down := by
  induction casts with
  | nil => intro db h; simpa [applyCasts] using h
  | cons c cs ih =>
    intro db h
    exact ih _ (castVote_preserves_tally _ _ _ _ _ h)

/-- C5: starting from freshly created submissions (all counters zero),
`total_votes = thumbs_up + thumbs_down` holds for every submission after
any sequence of POST /api/vote requests. -/
theorem tally_invariant (casts : List CastArgs) (db : DB)
    (h0 : ∀ s ∈ db.submissions,
      s.thumbs_up = 0 ∧ s.thumbs_down = 0 ∧ s.total_votes = 0) :
    ∀ s ∈ (applyCasts casts db).submissions,
      s.total_votes = s.thumbs_up + s.thumbs_down := by
  refine applyCasts_preserves_tally casts db ?_
  intro s hs
  obtain ⟨h1, h2, h3⟩ := h0 s hs
  rw [h1, h2, h3]

/-- Witness for C5: one fresh submission, one thumbs-up vote and one
malformed vote later the invariant holds on the whole table. -/
theorem tally_invariant_witness :
    ((applyCasts [⟨2, 1, some 1, 0⟩, ⟨3, 1, none, 0⟩]
        ⟨[⟨1, 1, 1, Status.PENDING, 0, 0, 0, 0, 0, none⟩], []⟩).submissions.all
      fun s => decide (s.total_votes = s.thumbs_up + s.thumbs_down)) = true := by
  rw [List.all_eq_true]
  intro x hx
  rw [decide_eq_true_eq]
  exact tally_invariant [⟨2, 1, some 1, 0⟩, ⟨3, 1, none, 0⟩]
    ⟨[⟨1, 1, 1, Status.PENDING, 0, 0, 0, 0, 0, none⟩], []⟩ (by decide) x hx

/-- C9: POST /api/vote performs no validation of `voteValue`: any value
other than the integer 1 — another number or a missing/malformed value —
is counted as a thumbs down on the target submission, and the call still
reports success. -/
theorem nonone_vote_counts_down (w t : Nat) (v : Option Int) (now : Nat)
    (db : DB) (hv : v ≠ some 1) :
    (castVote w t v now db).1.success = true ∧
    ∀ i (h1 : i < db.submissions.length),
      ∃ h2 : i < (castVote w t v now db).2.submissions.length,
        (db.submissions.get ⟨i, h1⟩).id = t →
          ((castVote w t v now db).2.submissions.get ⟨i, h2⟩).thumbs_down
              = (db.submissions.get ⟨i, h1⟩).thumbs_down + 1 ∧
            ((castVote w t v now db).2.submissions.get ⟨i, h2⟩).thumbs_up
              = (db.submissions.get ⟨i, h1⟩).thumbs_up ∧
            ((castVote w t v now db).2.submissions.get ⟨i, h2⟩).total_votes
              = (db.submissions.get ⟨i, h1⟩).total_votes + 1 := by
  obtain ⟨f, hmap, hf⟩ := castVote_submissions w t v now db
  refine ⟨castVote_success w t v now db, ?_⟩
  intro i h1
  have hlen2 : (castVote w t v now db).2.submissions.length
      = db.submissions.length := by
    rw [hmap, List.length_map]
  refine ⟨by omega, ?_⟩
  intro hid
  have hget : (castVote w t v now db).2.submissions.get ⟨i, by omega⟩
      = f (db.submissions.get ⟨i, h1⟩) := by
    simp only [List.get_eq_getElem]
    rw [List.getElem_of_eq hmap]
    exact List.getElem_map f
  obtain ⟨_, _, _, _, h5, h6, h7, _⟩ := hf (db.submissions.get ⟨i, h1⟩)
  rw [hget, h5, h6, h7]
  refine ⟨?_, ?_, ?_⟩
  · rw [if_pos ⟨hid, hv⟩]
  · rw [if_neg (fun hc => hv hc.2), Nat.add_zero]
  · rw [if_pos hid]

/-- Witness for C9: a missing vote value on submission 1 is tallied as a
thumbs down. -/
theorem nonone_vote_counts_down_witness :
    ((castVote 2 1 none 0
        ⟨[⟨1, 5, 1, Status.PENDING, 0, 0, 0, 0, 0, none⟩], []⟩).2.submissions.get
      ⟨0, by decide⟩).thumbs_down = 1 := by
  obtain ⟨-, h⟩ := nonone_vote_counts_down 2 1 none 0
    ⟨[⟨1, 5, 1, Status.PENDING, 0, 0, 0, 0, 0, none⟩], []⟩ (by decide)
  obtain ⟨h2, h3⟩ := h 0 (by decide)
  exact (h3 (by decide)).1

/-- C1 counterexample: voter 7 votes on their own submission 1; instead of
failing with `SelfVoteRejected` and leaving counters unchanged, the call
reports success and the counters move (total_votes becomes 1). -/
theorem selfvote_not_rejected :
    (castVote 7 1 (some 1) 0
        ⟨[⟨1, 7, 1, Status.PENDING, 0, 0, 0, 0, 0, none⟩], []⟩).1.success = true ∧
    ((castVote 7 1 (some 1) 0
        ⟨[⟨1, 7, 1, Status.PENDING, 0, 0, 0, 0, 0, none⟩], []⟩).2.submissions.map
      Submission.total_votes) = [1] := by decide

/-- C1 (amended): POST /api/vote has no self-vote check at all: a vote by
the owner on their own submission is accepted like any other vote — the
call reports success and the submission's `total_votes` is incremented.
(Self-submissions are excluded only at batch selection.) -/
theorem selfvote_recorded (w subId : Nat) (v : Option Int) (now : Nat)
    (db : DB) (i : Nat) (h1 : i < db.submissions.length)
    (hown : (db.submissions.get ⟨i, h1⟩).user_id = w)
    (hid : (db.submissions.get ⟨i, h1⟩).id = subId) :
    (castVote w subId v now db).1.success = true ∧
    ∃ h2 : i < (castVote w subId v now db).2.submissions.length,
      ((castVote w subId v now db).2.submissions.get ⟨i, h2⟩).total_votes
        = (db.submissions.get ⟨i, h1⟩).total_votes + 1 := by
  obtain ⟨f, hmap, hf⟩ := castVote_submissions w subId v now db
  refine ⟨castVote_success w subId v now db, ?_⟩
  have hlen2 : (castVote w subId v now db).2.submissions.length
      = db.submissions.length := by
    rw [hmap, List.length_map]
  refine ⟨by omega, ?_⟩
  have hget : (castVote w subId v now db).2.submissions.get ⟨i, by omega⟩
      = f (db.submissions.get ⟨i, h1⟩) := by
    simp only [List.get_eq_getElem]
    rw [List.getElem_of_eq hmap]
    exact List.getElem_map f
  obtain ⟨_, _, _, _, h5, _, _, _⟩ := hf (db.submissions.get ⟨i, h1⟩)
  rw [hget, h5, if_pos hid]

/-- Witness for C1's amended statement at the concrete self-vote input of
the counterexample. -/
theorem selfvote_recorded_witness :
    ((castVote 7 1 (some 1) 0
        ⟨[⟨1, 7, 1, Status.PENDING, 0, 0, 0, 0, 0, none⟩], []⟩).2.submissions.get
      ⟨0, by decide⟩).total_votes = 1 := by
  obtain ⟨-, h2, h3⟩ := selfvote_recorded 7 1 (some 1) 0
    ⟨[⟨1, 7, 1, Status.PENDING, 0, 0, 0, 0, 0, none⟩], []⟩ 0
    (by decide) (by decide) (by decide)
  exact h3

/-- C2 (code bug): voter 2 casts the same vote on submission 1 twice.
The ledger keeps a single row (the duplicate insert is discarded), but
the tally update is not gated on the insert: `total_votes` moves from 1
to 2 on the duplicate call, which still reports success. -/
theorem duplicate_vote_double_counts :
    ((castVote 2 1 (some 1) 0
        ⟨[⟨1, 1, 1, Status.PENDING, 0, 0, 0, 0, 0, none⟩], []⟩).2.user_votes.length = 1) ∧
    ((castVote 2 1 (some 1) 0
        ⟨[⟨1, 1, 1, Status.PENDING, 0, 0, 0, 0, 0, none⟩], []⟩).2.submissions.map
      Submission.total_votes = [1]) ∧
    ((castVote 2 1 (some 1) 0
        (castVote 2 1 (some 1) 0
          ⟨[⟨1, 1, 1, Status.PENDING, 0, 0, 0, 0, 0, none⟩], []⟩).2).2.user_votes.length = 1) ∧
    ((castVote 2 1 (some 1) 0
        (castVote 2 1 (some 1) 0
          ⟨[⟨1, 1, 1, Status.PENDING, 0, 0, 0, 0, 0, none⟩], []⟩).2).2.submissions.map
      Submission.total_votes = [2]) ∧
    (castVote 2 1 (some 1) 0
        (castVote 2 1 (some 1) 0
          ⟨[⟨1, 1, 1, Status.PENDING, 0, 0, 0, 0, 0, none⟩], []⟩).2).1.success = true := by
  decide

/-- C10: when the voter owns more than one submission, POST /api/vote
writes the recomputed vote count to `votes_completed` of every owned row,
and when the qualification guard fires, `QUALIFIED` and the
`qualified_at` stamp are applied to every owned row at once — while the
guard itself reads the status of only the first row returned for the
voter. -/
theorem multi_submission_qualify (w t : Nat) (v : Option Int) (now : Nat)
    (db : DB) (s1 s2 : Submission) (rest : List Submission)
    (hs : (db.submissions.filter fun x => decide (x.user_id = w))
      = s1 :: s2 :: rest) :
    ((castVote w t v now db).1.qualified = true ↔
      (25 ≤ (castVote w t v now db).1.votesCompleted ∧
        s1.status = Status.PENDING)) ∧
    ∀ x ∈ ((castVote w t v now db).2.submissions.filter
        fun x => decide (x.user_id = w)),
      x.votes_completed = (castVote w t v now db).1.votesCompleted ∧
      ((castVote w t v now db).1.qualified = true →
        x.status = Status.QUALIFIED ∧ x.qualified_at = some now) := by
  have hall : ∀ y ∈ s1 :: s2 :: rest, y.user_id = w := by
    intro y hy
    have hmem : y ∈ db.submissions.filter fun x => decide (x.user_id = w) := by
      rw [hs]; exact hy
    exact of_decide_eq_true (List.mem_filter.mp hmem).2
  have hfilter1 : ((db.submissions.map (bumpTally v t)).filter
      fun x => decide (x.user_id = w))
      = bumpTally v t s1 :: (s2 :: rest).map (bumpTally v t) := by
    rw [filter_map_of_preserve (bumpTally v t)
      (fun x => by rw [bumpTally_user_id]) db.submissions, hs, List.map_cons]
  unfold castVote
  dsimp only
  unfold qualifyStep
  rw [hfilter1]
  dsimp only
  rw [bumpTally_status]
  by_cases hQ : 25 ≤ voteCountOf w (recordVote w t v db.user_votes) ∧
      s1.status = Status.PENDING
  · rw [if_pos hQ]
    refine ⟨iff_of_true rfl hQ, ?_⟩
    intro x hx
    rw [filter_map_of_preserve _ (fun y => by split <;> rfl) _,
      filter_map_of_preserve _ (fun y => by split <;> rfl) _,
      hfilter1, ← List.map_cons, List.map_map, List.map_map] at hx
    obtain ⟨y, hy, rfl⟩ := List.mem_map.mp hx
    have hyw : y.user_id = w := hall y hy
    constructor
    · simp [Function.comp, bumpTally_user_id, hyw]
    · intro _
      constructor
      · simp [Function.comp, bumpTally_user_id, hyw]
      · simp [Function.comp, bumpTally_user_id, hyw]
  · rw [if_neg hQ]
    refine ⟨iff_of_false (by simp) hQ, ?_⟩
    intro x hx
    rw [filter_map_of_preserve _ (fun y => by split <;> rfl) _,
      hfilter1, ← List.map_cons, List.map_map] at hx
    obtain ⟨y, hy, rfl⟩ := List.mem_map.mp hx
    have hyw : y.user_id = w := hall y hy
    constructor
    · simp [Function.comp, bumpTally_user_id, hyw]
    · intro h
      exact absurd h (by simp)

/-- Witness for C10: voter 7 owns submissions 1 (PENDING, listed first)
and 2 (already QUALIFIED); with 24 prior votes, one more vote fires the
guard read off row 1 and row 2 also gets rewritten. -/
theorem multi_submission_qualify_witness :
    (castVote 7 50 (some 1) 9
      ⟨[⟨1, 7, 1, Status.PENDING, 0, 0, 0, 0, 0, none⟩,
        ⟨2, 7, 1, Status.QUALIFIED, 0, 0, 0, 0, 0, none⟩],
       (List.range 24).map fun k => ⟨7, 100 + k, some 1⟩⟩).1.qualified = true := by
  obtain ⟨hiff, -⟩ := multi_submission_qualify 7 50 (some 1) 9
    ⟨[⟨1, 7, 1, Status.PENDING, 0, 0, 0, 0, 0, none⟩,
      ⟨2, 7, 1, Status.QUALIFIED, 0, 0, 0, 0, 0, none⟩],
     (List.range 24).map fun k => ⟨7, 100 + k, some 1⟩⟩
    ⟨1, 7, 1, Status.PENDING, 0, 0, 0, 0, 0, none⟩
    ⟨2, 7, 1, Status.QUALIFIED, 0, 0, 0, 0, 0, none⟩ [] (by decide)
  exact hiff.mpr ⟨by decide, by decide⟩

theorem eligible_iff (u : Nat) (votes : List Vote) (s : Submission) :
    eligible u votes s = true ↔
      (s.user_id ≠ u ∧ ∀ v ∈ votes, ¬(v.voter_id = u ∧ v.submission_id = s.id)) := by
  unfold eligible
  simp

/-- Elementwise effect of the `times_shown` update loop: each row gets
one increment per returned entry carrying its id. -/
theorem markShown_get (es : List Submission) :
    ∀ (subs : List Submission) (i : Nat) (h : i < subs.length),
    ∃ h2 : i < (markShown es subs).length,
      ((markShown es subs).get ⟨i, h2⟩).times_shown
        = (subs.get ⟨i, h⟩).times_shown
          + (es.map Submission.id).count (subs.get ⟨i, h⟩).id := by
  induction es with
  | nil =>
    intro subs i h
    exact ⟨h, by simp [markShown]⟩
  | cons e es ih =>
    intro subs i h
    set g : Submission → Submission := fun s =>
      if s.id = e.id then { s with times_shown := s.times_shown + 1 } else s
      with hgdef
    have hcons : markShown (e :: es) subs = markShown es (subs.map g) := rfl
    have hlen : i < (subs.map g).length := by rw [List.length_map]; exact h
    obtain ⟨h2, hts⟩ := ih (subs.map g) i hlen
    rw [hcons]
    refine ⟨h2, ?_⟩
    rw [hts]
    have hget : (subs.map g).get ⟨i, hlen⟩ = g (subs.get ⟨i, h⟩) := by
      simp only [List.get_eq_getElem]
      exact List.getElem_map g
    have hgid : (g (subs.get ⟨i, h⟩)).id = (subs.get ⟨i, h⟩).id := by
      rw [hgdef]; dsimp only; split <;> rfl
    have hgts : (g (subs.get ⟨i, h⟩)).times_shown
        = (subs.get ⟨i, h⟩).times_shown
          + (if (subs.get ⟨i, h⟩).id = e.id then 1 else 0) := by
      rw [hgdef]; dsimp only; split_ifs <;> simp
    rw [hget, hgid, hgts, List.map_cons, List.count_cons]
    by_cases hid : (subs.get ⟨i, h⟩).id = e.id
    · have hbeq : (e.id == (subs.get ⟨i, h⟩).id) = true := beq_iff_eq.mpr hid.symm
      rw [if_pos hid, hbeq]
      simp
      omega
    · have hbeq : (e.id == (subs.get ⟨i, h⟩).id) = false := by
        simp only [beq_eq_false_iff_ne, ne_eq]
        exact fun hh => hid hh.symm
      rw [if_neg hid, hbeq]
      simp

/-- Every entry of a 25-entry batch drawn from a pool filtered by a
predicate at least as strong as eligibility is neither owned by the
caller nor already voted on by the caller. -/
theorem batch_take_eligible (u : Nat) (db : DB) (p : Submission → Bool)
    (hp : ∀ s, p s = true → eligible u db.user_votes s = true) :
    ∀ e ∈ (List.insertionSort shownOrder (db.submissions.filter p)).take 25,
      e.user_id ≠ u ∧
        ∀ v ∈ db.user_votes, ¬(v.voter_id = u ∧ v.submission_id = e.id) := by
  intro e he
  have h1 : e ∈ List.insertionSort shownOrder (db.submissions.filter p) :=
    List.mem_of_mem_take he
  have h2 : e ∈ db.submissions.filter p :=
    (List.mem_insertionSort shownOrder).mp h1
  exact (eligible_iff u db.user_votes e).mp (hp e (List.mem_filter.mp h2).2)

/-- When the submission ids are distinct, so are the ids of any batch. -/
theorem batch_take_nodup (db : DB) (p : Submission → Bool)
    (hnd : (db.submissions.map Submission.id).Nodup) :
    (((List.insertionSort shownOrder (db.submissions.filter p)).take 25).map
      Submission.id).Nodup := by
  have h1 : ((db.submissions.filter p).map Submission.id).Nodup :=
    List.Nodup.sublist ((List.filter_sublist db.submissions).map Submission.id) hnd
  have h2 : ((List.insertionSort shownOrder (db.submissions.filter p)).map
      Submission.id).Nodup :=
    (((List.perm_insertionSort shownOrder (db.submissions.filter p)).map
      Submission.id).symm).nodup h1
  exact List.Nodup.sublist ((List.take_sublist 25 _).map Submission.id) h2

/-- C7: GET /api/voting/batch returns at most 25 entries, never the
caller's own submission, never a submission the caller has voted on; it
answers success even when empty; and (given distinct submission ids) it
increments `times_shown` by exactly 1 for each returned entry and leaves
every other row's `times_shown` unchanged. -/
theorem batch_spec (u : Nat) (db : DB)
    (hnd : (db.submissions.map Submission.id).Nodup) :
    (getVotingBatch u db).1.success = true ∧
    (getVotingBatch u db).1.entries.length ≤ 25 ∧
    (∀ e ∈ (getVotingBatch u db).1.entries, e.user_id ≠ u ∧
      ∀ v ∈ db.user_votes, ¬(v.voter_id = u ∧ v.submission_id = e.id)) ∧
    ∀ i (h1 : i < db.submissions.length),
      ∃ h2 : i < (getVotingBatch u db).2.submissions.length,
        ((getVotingBatch u db).2.submissions.get ⟨i, h2⟩).times_shown
          = (db.submissions.get ⟨i, h1⟩).times_shown +
            (if (db.submissions.get ⟨i, h1⟩).id
                ∈ (getVotingBatch u db).1.entries.map Submission.id
             then 1 else 0) := by
  have main : ∀ p : Submission → Bool,
      (∀ s, p s = true → eligible u db.user_votes s = true) →
      ((List.insertionSort shownOrder (db.submissions.filter p)).take 25).length ≤ 25 ∧
      (∀ e ∈ (List.insertionSort shownOrder (db.submissions.filter p)).take 25,
        e.user_id ≠ u ∧
          ∀ v ∈ db.user_votes, ¬(v.voter_id = u ∧ v.submission_id = e.id)) ∧
      (∀ i (h1 : i < db.submissions.length),
        ∃ h2 : i < (markShown
            ((List.insertionSort shownOrder (db.submissions.filter p)).take 25)
            db.submissions).length,
          ((markShown
              ((List.insertionSort shownOrder (db.submissions.filter p)).take 25)
              db.submissions).get ⟨i, h2⟩).times_shown
            = (db.submissions.get ⟨i, h1⟩).times_shown +
              (if (db.submissions.get ⟨i, h1⟩).id
                  ∈ ((List.insertionSort shownOrder
                      (db.submissions.filter p)).take 25).map Submission.id
               then 1 else 0)) := by
    intro p hp
    refine ⟨List.length_take_le _ _, batch_take_eligible u db p hp, ?_⟩
    intro i h1
    obtain ⟨h2, hts⟩ := markShown_get _ db.submissions i h1
    refine ⟨h2, ?_⟩
    rw [hts]
    congr 1
    by_cases hmem : (db.submissions.get ⟨i, h1⟩).id
        ∈ ((List.insertionSort shownOrder (db.submissions.filter p)).take 25).map
          Submission.id
    · rw [if_pos hmem]
      exact List.count_eq_one_of_mem (batch_take_nodup db p hnd) hmem
    · rw [if_neg hmem]
      exact List.count_eq_zero_of_not_mem hmem
  by_cases hbr : ((List.insertionSort shownOrder (db.submissions.filter fun s =>
      eligible u db.user_votes s && decide (s.status = Status.QUALIFIED))).take
        25).isEmpty = true
  · have hev : getVotingBatch u db
        = (⟨true, (List.insertionSort shownOrder
            (db.submissions.filter fun s => eligible u db.user_votes s)).take 25⟩,
           ⟨markShown ((List.insertionSort shownOrder
              (db.submissions.filter fun s => eligible u db.user_votes s)).take 25)
              db.submissions,
            db.user_votes⟩) := by
      unfold getVotingBatch
      dsimp only
      rw [if_pos hbr]
    rw [hev]
    dsimp only
    obtain ⟨ha, hb, hc⟩ := main (fun s => eligible u db.user_votes s) (fun _ h => h)
    exact ⟨rfl, ha, hb, hc⟩
  · have hev : getVotingBatch u db
        = (⟨true, (List.insertionSort shownOrder
            (db.submissions.filter fun s =>
              eligible u db.user_votes s && decide (s.status = Status.QUALIFIED))).take 25⟩,
           ⟨markShown ((List.insertionSort shownOrder
              (db.submissions.filter fun s =>
                eligible u db.user_votes s && decide (s.status = Status.QUALIFIED))).take 25)
              db.submissions,
            db.user_votes⟩) := by
      unfold getVotingBatch
      dsimp only
      rw [if_neg hbr]
    rw [hev]
    dsimp only
    obtain ⟨ha, hb, hc⟩ := main
      (fun s => eligible u db.user_votes s && decide (s.status = Status.QUALIFIED))
      (fun _ h => by simp only [Bool.and_eq_true] at h; exact h.1)
    exact ⟨rfl, ha, hb, hc⟩

/-- Witness for C7: caller 3 owns submission 2; the batch holds the
eligible qualified submission 1 and its `times_shown` is bumped to 1. -/
theorem batch_spec_witness :
    (getVotingBatch 3 ⟨[⟨1, 1, 1, Status.QUALIFIED, 0, 0, 0, 0, 0, none⟩,
        ⟨2, 3, 1, Status.PENDING, 0, 0, 0, 0, 0, none⟩], []⟩).1.success = true ∧
    ((getVotingBatch 3 ⟨[⟨1, 1, 1, Status.QUALIFIED, 0, 0, 0, 0, 0, none⟩,
        ⟨2, 3, 1, Status.PENDING, 0, 0, 0, 0, 0, none⟩], []⟩).2.submissions.get
      ⟨0, by decide⟩).times_shown = 1 := by
  obtain ⟨h1, -, -, h4⟩ := batch_spec 3
    ⟨[⟨1, 1, 1, Status.QUALIFIED, 0, 0, 0, 0, 0, none⟩,
      ⟨2, 3, 1, Status.PENDING, 0, 0, 0, 0, 0, none⟩], []⟩ (by decide)
  refine ⟨h1, ?_⟩
  obtain ⟨h2, hts⟩ := h4 0 (by decide)
  rw [hts]
  decide

/-- C6 counterexample: for voter 3 exactly one eligible QUALIFIED
candidate remains — fewer than the quota of 25 — and an eligible PENDING
submission exists, yet the batch holds only the qualified entry: no
fallback to the full pool happens when the qualified pool is merely
small but nonempty. -/
theorem batch_small_pool_no_fallback :
    ((getVotingBatch 3 ⟨[⟨1, 1, 1, Status.QUALIFIED, 0, 0, 0, 0, 0, none⟩,
        ⟨2, 2, 1, Status.PENDING, 0, 0, 0, 0, 0, none⟩], []⟩).1.entries.map
      Submission.id) = [1] ∧
    ((⟨[⟨1, 1, 1, Status.QUALIFIED, 0, 0, 0, 0, 0, none⟩,
        ⟨2, 2, 1, Status.PENDING, 0, 0, 0, 0, 0, none⟩], []⟩ : DB).submissions.filter
      fun s => eligible 3 [] s && decide (s.status = Status.QUALIFIED)).length = 1 ∧
    eligible 3 [] ⟨2, 2, 1, Status.PENDING, 0, 0, 0, 0, 0, none⟩ = true := by
  decide

/-- C6 (amended): the fallback to the full unvoted candidate pool
(including PENDING submissions) happens exactly when ZERO eligible
QUALIFIED candidates remain for the caller — not whenever fewer than 25
remain; the fallback still excludes the caller's own submissions and the
ones already voted on, and when the eligible pool fits in one batch every
eligible submission (PENDING included) is offered. -/
theorem batch_fallback_spec (u : Nat) (db : DB)
    (h : (db.submissions.filter fun s =>
        eligible u db.user_votes s && decide (s.status = Status.QUALIFIED)) = []) :
    (getVotingBatch u db).1.entries
      = (List.insertionSort shownOrder
          (db.submissions.filter fun s => eligible u db.user_votes s)).take 25 ∧
    (∀ e ∈ (getVotingBatch u db).1.entries, e.user_id ≠ u ∧
      ∀ v ∈ db.user_votes, ¬(v.voter_id = u ∧ v.submission_id = e.id)) ∧
    (∀ s ∈ db.submissions, eligible u db.user_votes s = true →
      (db.submissions.filter fun s => eligible u db.user_votes s).length ≤ 25 →
      s ∈ (getVotingBatch u db).1.entries) := by
  have hentries : (getVotingBatch u db).1.entries
      = (List.insertionSort shownOrder
          (db.submissions.filter fun s => eligible u db.user_votes s)).take 25 := by
    unfold getVotingBatch
    dsimp only
    rw [h]
    rfl
  refine ⟨hentries, ?_, ?_⟩
  · rw [hentries]
    exact batch_take_eligible u db _ (fun _ hs => hs)
  · intro s hsmem hel hlen
    rw [hentries]
    have hsort : s ∈ List.insertionSort shownOrder
        (db.submissions.filter fun s => eligible u db.user_votes s) :=
      (List.mem_insertionSort shownOrder).mpr
        (List.mem_filter.mpr ⟨hsmem, hel⟩)
    have hlen2 : (List.insertionSort shownOrder
        (db.submissions.filter fun s => eligible u db.user_votes s)).length ≤ 25 := by
      rw [List.length_insertionSort]
      exact hlen
    rw [List.take_of_length_le hlen2]
    exact hsort

/-- Witness for C6's amended statement: with no qualified candidates at
all, the eligible pending submission 2 is offered to voter 3. -/
theorem batch_fallback_spec_witness :
    (⟨2, 2, 1, Status.PENDING, 0, 0, 0, 0, 0, none⟩ : Submission)
      ∈ (getVotingBatch 3
        ⟨[⟨2, 2, 1, Status.PENDING, 0, 0, 0, 0, 0, none⟩], []⟩).1.entries := by
  obtain ⟨-, -, h3⟩ := batch_fallback_spec 3
    ⟨[⟨2, 2, 1, Status.PENDING, 0, 0, 0, 0, 0, none⟩], []⟩ (by decide)
  exact h3 _ (by decide) (by decide) (by decide)

theorem minimumVotes_eq_ceil (n : Nat) :
    minimumVotes n = max (Nat.ceil ((n : ℚ) * (20 / 100))) 1 := by
  unfold minimumVotes
  congr 1
  have h20 : ((n : ℚ) * (20 / 100)) = (n : ℚ) / 5 := by ring
  rw [h20]
  refine le_antisymm ?_ ?_
  · have hc : ((n : ℚ) / 5) ≤ (Nat.ceil ((n : ℚ) / 5) : ℚ) := Nat.le_ceil _
    rw [div_le_iff₀ (by norm_num : (0:ℚ) < 5)] at hc
    have hn : n ≤ Nat.ceil ((n : ℚ) / 5) * 5 := by exact_mod_cast hc
    omega
  · rw [Nat.ceil_le, div_le_iff₀ (by norm_num : (0:ℚ) < 5)]
    have hn : n ≤ ((n + 4) / 5) * 5 := by omega
    exact_mod_cast hn

theorem approval_rating_eq (s : Submission) :
    approval_rating s = (s.thumbs_up : ℚ) / (s.total_votes : ℚ) * 100 := by
  unfold approval_rating
  split_ifs with h
  · rfl
  · have h0 : s.total_votes = 0 := by omega
    rw [h0]
    norm_num

theorem winnerOrder_iff (a b : Submission) :
    winnerOrder a b ↔
      ((b.thumbs_up : ℚ) / (b.total_votes : ℚ)
          < (a.thumbs_up : ℚ) / (a.total_votes : ℚ) ∨
        ((a.thumbs_up : ℚ) / (a.total_votes : ℚ)
            = (b.thumbs_up : ℚ) / (b.total_votes : ℚ) ∧
          b.total_votes ≤ a.total_votes)) := by
  unfold winnerOrder
  rw [approval_rating_eq, approval_rating_eq]
  have h100 : (0:ℚ) < 100 := by norm_num
  constructor
  · rintro (h | ⟨h1, h2⟩)
    · exact Or.inl ((mul_lt_mul_right h100).mp h)
    · exact Or.inr ⟨mul_right_cancel₀ (by norm_num) h1, h2⟩
  · rintro (h | ⟨h1, h2⟩)
    · exact Or.inl ((mul_lt_mul_right h100).mpr h)
    · exact Or.inr ⟨by rw [h1], h2⟩

/-- C4: GET /api/winners computes the quorum as
`max(ceil(0.20 x totalDistinctVoters), 1)` over the voters of the whole
competition, returns at most 10 submissions, all of the requested week
with status QUALIFIED and `total_votes` at least the quorum, ranked by
approval rating (thumbs up over total votes) descending with ties broken
by total votes descending.  The handler is a pure read: by construction
`getWinners` returns no updated database state. -/
theorem winners_spec (weekNumber : Nat) (db : DB) :
    (getWinners weekNumber db).2
      = max (Nat.ceil ((distinctVoters db.user_votes : ℚ) * (20 / 100))) 1 ∧
    (getWinners weekNumber db).1.length ≤ 10 ∧
    (∀ s ∈ (getWinners weekNumber db).1,
      s.week_number = weekNumber ∧ s.status = Status.QUALIFIED ∧
        (getWinners weekNumber db).2 ≤ s.total_votes) ∧
    (getWinners weekNumber db).1.Pairwise fun a b =>
      (b.thumbs_up : ℚ) / (b.total_votes : ℚ)
          < (a.thumbs_up : ℚ) / (a.total_votes : ℚ) ∨
        ((a.thumbs_up : ℚ) / (a.total_votes : ℚ)
            = (b.thumbs_up : ℚ) / (b.total_votes : ℚ) ∧
          b.total_votes ≤ a.total_votes) := by
  unfold getWinners
  dsimp only
  refine ⟨minimumVotes_eq_ceil _, List.length_take_le _ _, ?_, ?_⟩
  · intro s hs
    have h1 := List.mem_of_mem_take hs
    have h2 := (List.mem_insertionSort winnerOrder).mp h1
    have h3 := (List.mem_filter.mp h2).2
    simp only [Bool.and_eq_true, decide_eq_true_eq] at h3
    exact ⟨h3.1.1, h3.1.2, h3.2⟩
  · have hsorted := List.sorted_insertionSort winnerOrder
      (db.submissions.filter fun s =>
        decide (s.week_number = weekNumber) && decide (s.status = Status.QUALIFIED) &&
          decide (minimumVotes (distinctVoters db.user_votes) ≤ s.total_votes))
    have htake := List.Pairwise.sublist (List.take_sublist 10 _) hsorted
    exact htake.imp fun h => (winnerOrder_iff _ _).mp h

/-- C8: `getCurrentWeek` is a pure function of the current instant and the
fixed start date; it returns 0 for any instant strictly before the start
date, k (1 ≤ k ≤ 10) throughout the k-th 7-day bucket from the start, and
11 for any instant at or past day 70; in particular it returns 1 at
exactly the start date and 0 one day before. -/
theorem getCurrentWeek_spec (nowMs : Int) :
    (nowMs < startDateMs → getCurrentWeek nowMs = 0) ∧
    (∀ k : Int, 1 ≤ k → k ≤ 10 →
      startDateMs + (k - 1) * 7 * msPerDay ≤ nowMs →
      nowMs < startDateMs + k * 7 * msPerDay →
      getCurrentWeek nowMs = k) ∧
    (startDateMs + 70 * msPerDay ≤ nowMs → getCurrentWeek nowMs = 11) ∧
    getCurrentWeek startDateMs = 1 ∧
    getCurrentWeek (startDateMs - msPerDay) = 0 := by
  have hD : (0:Int) ≤ msPerDay := by decide
  refine ⟨?_, ?_, ?_, by decide, by decide⟩
  · intro h
    simp only [getCurrentWeek]
    rw [Int.fdiv_eq_ediv _ hD, Int.fdiv_eq_ediv _ (by decide : (0:Int) ≤ 7)]
    unfold startDateMs at h ⊢
    unfold msPerDay
    split
    · rfl
    · omega
  · intro k hk1 hk10 hlo hhi
    simp only [getCurrentWeek]
    rw [Int.fdiv_eq_ediv _ hD, Int.fdiv_eq_ediv _ (by decide : (0:Int) ≤ 7)]
    unfold startDateMs msPerDay at hlo hhi ⊢
    split
    · omega
    · split
      · omega
      · omega
  · intro h
    simp only [getCurrentWeek]
    rw [Int.fdiv_eq_ediv _ hD, Int.fdiv_eq_ediv _ (by decide : (0:Int) ≤ 7)]
    unfold startDateMs msPerDay at h ⊢
    split
    · omega
    · split
      · rfl
      · omega

/-- Witness for C8 at concrete instants: day 10 after the start lies in
week 2, and the theorem's bucket clause yields exactly that. -/
theorem getCurrentWeek_spec_witness :
    getCurrentWeek (startDateMs + 10 * msPerDay) = 2 :=
  (getCurrentWeek_spec (startDateMs + 10 * msPerDay)).2.1 2
    (by decide) (by decide) (by decide) (by decide)

end CarMod
